import Mathlib

/-
Verification of `bin/check_samplesheet_vcf.py`.

The script validates a tabular samplesheet: it sniffs the dialect, checks
that the header contains the required columns, validates each row's file
suffixes, checks that sample names are globally unique, renames samples
with a `_T{n}` suffix, and writes the result as CSV with an extra
`single_end` column inserted at position 1.

Shallow embedding conventions:
  * A parsed row (a `csv.DictReader` dict) is an association list from
    column name to value; `csv.DictReader` produces keys equal to the
    header fields, which theorems assume through explicit well-formedness
    hypotheses where needed.
  * `logger.critical(msg); sys.exit(1)` and uncaught `AssertionError`s are
    both modelled as `Except.error msg`: either way the run aborts with a
    non-zero exit before the output file is opened.
  * `csv.Sniffer().has_header` is an external stdlib heuristic over raw
    bytes; it is passed in as the boolean `hasHeader` oracle, everything
    downstream of it is modelled from the source.
-/

/-- A parsed CSV row: an ordered mapping from column name to value,
modelling the `dict` yielded by `csv.DictReader`. -/
abbrev Row := List (String × String)

/-- Python `row[c]`: look up column `c`.  For the well-formed rows produced
by `csv.DictReader` the key is always present; the `""` default is never
reached under the well-formedness hypotheses used by the theorems. -/
def getCol (row : Row) (c : String) : String := (row.lookup c).getD ""

/-- Python `row[c] = v` on a dict whose key `c` exists: replace the value
in place, keeping the entry's position. -/
def setCol (row : Row) (c v : String) : Row :=
  row.map (fun p => if p.1 = c then (c, v) else p)

/-- Character-list prefix test (building block for the string predicates
below; `a` is tested as a prefix of `b`). -/
def hasPre : List Char → List Char → Bool
  | [], _ => true
  | _ :: _, [] => false
  | a :: s, b :: t => a == b && hasPre s t

/-- Character-list substring test: does `needle` occur contiguously in the
second argument? -/
def hasSub (needle : List Char) : List Char → Bool
  | [] => needle.isEmpty
  | b :: t => hasPre needle (b :: t) || hasSub needle t

/-- Python `needle in hay` on strings (used to state what a diagnostic
message mentions). -/
def strContains (hay needle : String) : Bool := hasSub needle.data hay.data

/-- Python `s.endswith(pat)`. -/
def strEndsWith (s pat : String) : Bool := hasPre pat.data.reverse s.data.reverse

/-- Diagnostic of `RowChecker._validate_sample` for a bad `vcf` value. -/
def vcfMsg (v : String) : String :=
  "Unexpected VCF file extension: " ++ v ++ ". The valid VCF extension should be: vcf.gz."

/-- Diagnostic of `RowChecker._validate_sample` for a bad `traits` value. -/
def traitsMsg (v : String) : String :=
  "Unexpected traits file extension: " ++ v ++ ". The valid VCF extension should be: _traits-json.json."

/-- Diagnostic of `RowChecker._validate_sample` for a bad `ancestry` value. -/
def ancestryMsg (v : String) : String :=
  "Unexpected ancestry file extension: " ++ v ++ ". The valid VCF extension should be: _ancestry-json.json."

/-- `RowChecker._validate_sample`: assert the three suffix conventions, in
source order (vcf, then traits, then ancestry); the first failure raises.
`check_samplesheet` instantiates `RowChecker()` with the default column
names `sample`/`vcf`/`traits`/`ancestry`, which are inlined here. -/
def validateSample (row : Row) : Except String Unit :=
  if !strEndsWith (getCol row "vcf") ".vcf.gz" then
    .error (vcfMsg (getCol row "vcf"))
  else if !strEndsWith (getCol row "traits") "_traits-json.json" then
    .error (traitsMsg (getCol row "traits"))
  else if !strEndsWith (getCol row "ancestry") "_ancestry-json.json" then
    .error (ancestryMsg (getCol row "ancestry"))
  else
    .ok ()

/-- The mutable state of a `RowChecker`: `_seen` (a Python `set`, modelled
as a duplicate-free list in insertion order — only its size is ever read)
and `modified` (the accepted rows, in input order). -/
structure RowChecker where
  seen : List String
  modified : List Row

/-- Python `set.add`. -/
def setInsert (s : List String) (x : String) : List String :=
  if x ∈ s then s else s ++ [x]

/-- `RowChecker.validate_and_transform`: validate the row, record its
sample value in `_seen`, append the row (unmodified) to `modified`. -/
def validateAndTransform (ck : RowChecker) (row : Row) : Except String RowChecker :=
  match validateSample row with
  | .error e => .error e
  | .ok _ => .ok ⟨setInsert ck.seen (getCol row "sample"), ck.modified ++ [row]⟩

/-- The renaming loop of `RowChecker.validate_unique_samples`: walk the
rows in order with a `Counter`, rewriting each row's sample to
`{sample}_T{count}`. -/
def renameRowsAux (cnt : String → Nat) : List Row → List Row
  | [] => []
  | row :: rest =>
    let s := getCol row "sample"
    setCol row "sample" (s ++ "_T" ++ toString (cnt s + 1)) ::
      renameRowsAux (fun t => if t = s then cnt s + 1 else cnt t) rest

/-- The renaming loop started from the empty `Counter`. -/
def renameRows (rows : List Row) : List Row := renameRowsAux (fun _ => 0) rows

/-- Message of the `AssertionError` raised by
`RowChecker.validate_unique_samples` (uncaught, so it aborts the run). -/
def uniqueErr : String := "The pair of sample name and VCF must be unique."

/-- `RowChecker.validate_unique_samples`: require
`len(self._seen) == len(self.modified)`, then rename every sample with its
occurrence count. -/
def validateUniqueSamples (ck : RowChecker) : Except String (List Row) :=
  if ck.seen.length ≠ ck.modified.length then .error uniqueErr
  else .ok (renameRows ck.modified)

/-- The row loop of `check_samplesheet`: `for i, row in enumerate(reader)`
with `validate_and_transform` under `try`, failing with the row's message
suffixed by ` On line {i + 2}.` and exiting on the first bad row. -/
def processRows (ck : RowChecker) (i : Nat) : List Row → Except String RowChecker
  | [] => .ok ck
  | row :: rest =>
    match validateAndTransform ck row with
    | .error e => .error (e ++ " On line " ++ toString (i + 2) ++ ".")
    | .ok ck2 => processRows ck2 (i + 1) rest

/-- `required_columns` of `check_samplesheet` (a Python `set` literal,
modelled as a list; only membership and iteration for the diagnostic are
used). -/
def requiredColumns : List String := ["sample", "vcf", "traits", "ancestry"]

/-- `", ".join(...)`. -/
def joinComma : List String → String
  | [] => ""
  | [x] => x
  | x :: y :: t => x ++ ", " ++ joinComma (y :: t)

/-- Diagnostic of the header check in `check_samplesheet`.  Python renders
`required_columns` in set-iteration order and `reader.fieldnames` with
`repr`; both are modelled as comma-joined lists (the theorems only assert
which names the message mentions). -/
def headerErr (fieldnames : List String) : String :=
  "The sample sheet **must** contain these column headers: " ++ joinComma requiredColumns ++
    ". It currently contains " ++ joinComma fieldnames

/-- Diagnostic of `sniff_format` when `csv.Sniffer().has_header` is false. -/
def noHeaderErr : String := "The given sample sheet does not appear to contain a header."

/-- Python `header.insert(1, x)` (clamping like `list.insert` when the
list is shorter than the position). -/
def insertSecond (x : String) : List String → List String
  | [] => [x]
  | h :: t => h :: x :: t

/-- One output record of `csv.DictWriter.writerow`: the row's value for
each header column in order, with `restval=""` for a missing key.  (The
writer would raise on keys outside the header; accepted rows' keys are
always a subset of the output header, which extends the input header.) -/
def writeRow (header : List String) (row : Row) : List String :=
  header.map (fun c => (row.lookup c).getD "")

/-- The sample values of a list of rows, in order. -/
def samplesOf (rows : List Row) : List String := rows.map (fun r => getCol r "sample")

/-- Specification-side helper: the contents of `_seen` after `set.add`-ing
each element of a list in order, starting from `acc`. -/
def addSeen (acc : List String) : List String → List String
  | [] => acc
  | s :: t => addSeen (setInsert acc s) t

/-- Specification-side description of the output records, following the
spec's words: one record per input row, laid out along the input header
with `single_end` inserted at position 1; the `sample` column carries the
renamed value, the inserted `single_end` column is empty, and every other
column carries the input row's value verbatim.  It is compared against the
records `checkSamplesheet` actually produces. -/
def specExpectedOutput (fieldnames : List String) (rows : List Row) : List (List String) :=
  rows.map (fun row => (insertSecond "single_end" fieldnames).map (fun c =>
    if c = "sample" then getCol row "sample" ++ "_T1"
    else if c = "single_end" then "" else getCol row c))

/-- The validation/renaming/writing phases of `check_samplesheet` that run
after the header check: the row loop, `validate_unique_samples`, header
insertion and `DictWriter` serialization.  On success the result is the
output header line and the output records. -/
def validateRowsAndWrite (fieldnames : List String) (rows : List Row) :
    Except String (List String × List (List String)) :=
  match processRows ⟨[], []⟩ 0 rows with
  | .error e => .error e
  | .ok ck =>
    match validateUniqueSamples ck with
    | .error e => .error e
    | .ok renamed =>
      .ok (insertSecond "single_end" fieldnames,
        renamed.map (writeRow (insertSecond "single_end" fieldnames)))

/-- `check_samplesheet` from the point where the input has been parsed:
`hasHeader` is the verdict of `csv.Sniffer().has_header` on the file's
first lines, `fieldnames` the parsed header, `rows` the parsed data rows.
An `Except.error` models `sys.exit(1)` (or an uncaught `AssertionError`):
a fatal diagnostic emitted before the output file is opened. -/
def checkSamplesheet (hasHeader : Bool) (fieldnames : List String) (rows : List Row) :
    Except String (List String × List (List String)) :=
  if !hasHeader then .error noHeaderErr
  else if !(requiredColumns.all (fun c => decide (c ∈ fieldnames))) then
    .error (headerErr fieldnames)
  else validateRowsAndWrite fieldnames rows

/-- The header of the concrete test inputs below. -/
def fourCols : List String := ["sample", "vcf", "traits", "ancestry"]

/-- Concrete row: sample `S1` with valid file suffixes. -/
def rowS1 : Row :=
  [("sample", "S1"), ("vcf", "S1.vcf.gz"), ("traits", "S1_traits-json.json"),
    ("ancestry", "S1_ancestry-json.json")]

/-- Concrete row: sample `S1` again, with a different (valid) vcf. -/
def rowS1b : Row :=
  [("sample", "S1"), ("vcf", "B.vcf.gz"), ("traits", "B_traits-json.json"),
    ("ancestry", "B_ancestry-json.json")]

/-- Concrete row: the first-run output of `rowS1` fed back in as input,
with the inserted `single_end` column dropped. -/
def rowS1Renamed : Row :=
  [("sample", "S1_T1"), ("vcf", "S1.vcf.gz"), ("traits", "S1_traits-json.json"),
    ("ancestry", "S1_ancestry-json.json")]

/-- Concrete row whose vcf value has the wrong suffix `.vcf`. -/
def badVcfRow : Row :=
  [("sample", "S1"), ("vcf", "S1.vcf"), ("traits", "S1_traits-json.json"),
    ("ancestry", "S1_ancestry-json.json")]

/-- Concrete row over a header that already contains `single_end`, with a
non-empty value there. -/
def rowWithSingleEnd : Row :=
  [("sample", "S1"), ("single_end", "x"), ("vcf", "S1.vcf.gz"),
    ("traits", "S1_traits-json.json"), ("ancestry", "S1_ancestry-json.json")]

/-- Concrete row with an empty sample value and valid file suffixes. -/
def emptySampleRow : Row :=
  [("sample", ""), ("vcf", "E.vcf.gz"), ("traits", "E_traits-json.json"),
    ("ancestry", "E_ancestry-json.json")]

/-! ### String helper lemmas -/

theorem strExt {s t : String} (h : s.data = t.data) : s = t := by
  cases s
  cases t
  exact congrArg String.mk h

theorem strAppend_assoc (a b c : String) : a ++ b ++ c = a ++ (b ++ c) := by
  apply strExt
  show a.data ++ b.data ++ c.data = a.data ++ (b.data ++ c.data)
  exact List.append_assoc a.data b.data c.data

theorem hasPre_self_append : ∀ (n t : List Char), hasPre n (n ++ t) = true
  | [], _ => rfl
  | a :: s, t => by simp [hasPre, hasPre_self_append s t]

theorem hasPre_refl (l : List Char) : hasPre l l = true := by
  have h := hasPre_self_append l []
  rwa [List.append_nil] at h

theorem hasPre_extend : ∀ {n h : List Char} (t : List Char),
    hasPre n h = true → hasPre n (h ++ t) = true
  | [], _, _, _ => rfl
  | _ :: _, [], t, hp => by simp [hasPre] at hp
  | a :: s, b :: u, t, hp => by
    simp [hasPre] at hp
    simp [hasPre, hp.1, hasPre_extend t hp.2]

theorem hasSub_extend_left : ∀ (p : List Char) {n h : List Char},
    hasSub n h = true → hasSub n (p ++ h) = true
  | [], _, _, hs => hs
  | b :: p, n, h, hs => by
    have ih := hasSub_extend_left p hs
    simp only [List.cons_append, hasSub, Bool.or_eq_true]
    exact Or.inr ih

theorem hasSub_extend_right : ∀ {n h : List Char} (t : List Char),
    hasSub n h = true → hasSub n (h ++ t) = true
  | n, [], t, hs => by
    have hn : n = [] := by
      simpa [hasSub, List.isEmpty_iff] using hs
    subst hn
    cases t with
    | nil => rfl
    | cons b u => simp [hasSub, hasPre]
  | n, b :: u, t, hs => by
    simp only [hasSub, Bool.or_eq_true] at hs
    simp only [List.cons_append, hasSub, Bool.or_eq_true]
    rcases hs with hp | hsub
    · exact Or.inl (hasPre_extend t hp)
    · exact Or.inr (hasSub_extend_right t hsub)

theorem strContains_self (s : String) : strContains s s = true := by
  unfold strContains
  cases h : s.data with
  | nil => rfl
  | cons c t => simp [hasSub, hasPre_refl]

theorem strContains_right {b n : String} (a : String) (h : strContains b n = true) :
    strContains (a ++ b) n = true := by
  unfold strContains at h ⊢
  show hasSub n.data (a.data ++ b.data) = true
  exact hasSub_extend_left a.data h

theorem strContains_left {a n : String} (b : String) (h : strContains a n = true) :
    strContains (a ++ b) n = true := by
  unfold strContains at h ⊢
  show hasSub n.data (a.data ++ b.data) = true
  exact hasSub_extend_right b.data h

theorem strContains_mid (a mid b : String) : strContains (a ++ mid ++ b) mid = true :=
  strContains_left b (strContains_right a (strContains_self mid))

theorem hasPre_iff : ∀ (a b : List Char), hasPre a b = true ↔ a <+: b
  | [], b => by simp [hasPre]
  | a :: s, [] => by simp [hasPre]
  | a :: s, b :: t => by
    simp [hasPre, hasPre_iff s t, List.cons_prefix_cons, beq_iff_eq]

theorem strEndsWith_iff (s pat : String) :
    strEndsWith s pat = true ↔ pat.data <:+ s.data := by
  unfold strEndsWith
  rw [hasPre_iff]
  exact List.reverse_prefix

/-! ### Association-list (row dict) lemmas -/

theorem lookup_eq_none : ∀ {r : Row} {c : String}, c ∉ r.map Prod.fst → r.lookup c = none
  | [], _, _ => rfl
  | (k, v) :: t, c, h => by
    simp only [List.map_cons, List.mem_cons, not_or] at h
    rw [List.lookup_cons]
    have hk : (c == k) = false := by simpa [beq_eq_false_iff_ne] using h.1
    rw [hk]
    exact lookup_eq_none h.2

theorem lookup_setCol_self : ∀ {r : Row} {c : String} (v : String),
    c ∈ r.map Prod.fst → (setCol r c v).lookup c = some v
  | [], c, v, h => by simp at h
  | (k, w) :: t, c, v, h => by
    have hsc : setCol ((k, w) :: t) c v = (if k = c then (c, v) else (k, w)) :: setCol t c v := rfl
    rw [hsc]
    by_cases hk : k = c
    · rw [if_pos hk]
      simp
    · rw [if_neg hk, List.lookup_cons]
      have hk2 : (c == k) = false := by simpa [beq_eq_false_iff_ne] using Ne.symm hk
      rw [hk2]
      have h2 : c ∈ t.map Prod.fst := by
        simp only [List.map_cons, List.mem_cons] at h
        rcases h with h | h
        · exact absurd h.symm hk
        · exact h
      exact lookup_setCol_self v h2

theorem lookup_setCol_ne : ∀ {r : Row} {c c' v : String},
    c' ≠ c → (setCol r c v).lookup c' = r.lookup c'
  | [], _, _, _, _ => rfl
  | (k, w) :: t, c, c', v, h => by
    have hsc : setCol ((k, w) :: t) c v = (if k = c then (c, v) else (k, w)) :: setCol t c v := rfl
    rw [hsc]
    by_cases hk : k = c
    · rw [if_pos hk, List.lookup_cons, List.lookup_cons]
      have h1 : (c' == c) = false := by simpa [beq_eq_false_iff_ne] using h
      have h2 : (c' == k) = false := by
        rw [hk]
        exact h1
      rw [h1, h2]
      exact lookup_setCol_ne h
    · rw [if_neg hk, List.lookup_cons, List.lookup_cons]
      cases hck : (c' == k) with
      | true => rfl
      | false => exact lookup_setCol_ne h

theorem keys_setCol (r : Row) (c v : String) :
    (setCol r c v).map Prod.fst = r.map Prod.fst := by
  induction r with
  | nil => rfl
  | cons p t ih =>
    by_cases hp : p.1 = c
    · simp [setCol, hp] at ih ⊢
      exact ih
    · simp [setCol, hp] at ih ⊢
      exact ih

theorem getCol_setCol_self {r : Row} {c : String} (v : String)
    (h : c ∈ r.map Prod.fst) : getCol (setCol r c v) c = v := by
  unfold getCol
  rw [lookup_setCol_self v h]
  rfl

theorem getCol_setCol_ne {r : Row} {c c' v : String} (h : c' ≠ c) :
    getCol (setCol r c v) c' = getCol r c' := by
  unfold getCol
  rw [lookup_setCol_ne h]

theorem getCol_eq_default {r : Row} {c : String} (h : c ∉ r.map Prod.fst) :
    getCol r c = "" := by
  unfold getCol
  rw [lookup_eq_none h]
  rfl

/-! ### `_seen` bookkeeping lemmas -/

theorem mem_setInsert {s : List String} {x y : String} :
    y ∈ setInsert s x ↔ y ∈ s ∨ y = x := by
  unfold setInsert
  by_cases hx : x ∈ s
  · rw [if_pos hx]
    constructor
    · exact Or.inl
    · rintro (h | rfl)
      · exact h
      · exact hx
  · rw [if_neg hx]
    simp

theorem nodup_setInsert {s : List String} (x : String) (h : s.Nodup) :
    (setInsert s x).Nodup := by
  unfold setInsert
  by_cases hx : x ∈ s
  · rwa [if_pos hx]
  · rw [if_neg hx, List.nodup_append]
    refine ⟨h, List.nodup_singleton x, ?_⟩
    intro a ha hax
    simp only [List.mem_singleton] at hax
    exact hx (hax ▸ ha)

theorem mem_addSeen : ∀ (l acc : List String) (x : String),
    x ∈ addSeen acc l ↔ x ∈ acc ∨ x ∈ l
  | [], acc, x => by simp [addSeen]
  | s :: t, acc, x => by
    have hstep : addSeen acc (s :: t) = addSeen (setInsert acc s) t := rfl
    rw [hstep, mem_addSeen t (setInsert acc s) x, mem_setInsert, List.mem_cons]
    tauto

theorem nodup_addSeen : ∀ (l acc : List String), acc.Nodup → (addSeen acc l).Nodup
  | [], _, h => h
  | s :: t, acc, h => nodup_addSeen t (setInsert acc s) (nodup_setInsert s h)

theorem length_addSeen_dedup (l : List String) :
    (addSeen [] l).length = l.dedup.length := by
  have h1 : (addSeen [] l).Nodup := nodup_addSeen l [] List.nodup_nil
  have h2 : l.dedup.Nodup := List.nodup_dedup l
  have hperm : List.Perm (addSeen [] l) l.dedup := by
    rw [List.perm_ext_iff_of_nodup h1 h2]
    intro a
    rw [mem_addSeen, List.mem_dedup]
    simp
  exact hperm.length_eq

theorem dedup_length_iff (l : List String) : l.dedup.length = l.length ↔ l.Nodup := by
  constructor
  · intro h
    exact List.dedup_eq_self.mp ((List.dedup_sublist l).eq_of_length h)
  · intro h
    rw [List.dedup_eq_self.mpr h]

/-! ### Row-loop lemmas -/

theorem processRows_ok : ∀ (rows : List Row) (ck : RowChecker) (i : Nat),
    (∀ r ∈ rows, validateSample r = .ok ()) →
    processRows ck i rows = .ok ⟨addSeen ck.seen (samplesOf rows), ck.modified ++ rows⟩
  | [], ck, i, _ => by simp [processRows, samplesOf, addSeen]
  | row :: rest, ck, i, h => by
    have hrow : validateSample row = .ok () := h row (List.mem_cons_self row rest)
    have hrest : ∀ r ∈ rest, validateSample r = .ok () :=
      fun r hr => h r (List.mem_cons_of_mem row hr)
    simp only [processRows, validateAndTransform, hrow]
    rw [processRows_ok rest _ (i + 1) hrest]
    simp [samplesOf, addSeen]

theorem processRows_ok_inv : ∀ (rows : List Row) (ck : RowChecker) (i : Nat)
    (ck' : RowChecker), processRows ck i rows = .ok ck' →
    ∀ r ∈ rows, validateSample r = .ok ()
  | [], _, _, _, _, r, hr => absurd hr (List.not_mem_nil r)
  | row :: rest, ck, i, ck', h, r, hr => by
    cases hv : validateSample row with
    | error e =>
      simp only [processRows, validateAndTransform, hv] at h
      exact Except.noConfusion h
    | ok u =>
      cases u
      simp only [processRows, validateAndTransform, hv] at h
      rcases List.mem_cons.mp hr with rfl | hr2
      · exact hv
      · exact processRows_ok_inv rest _ _ _ h r hr2

theorem processRows_error_first : ∀ (pre : List Row) (ck : RowChecker) (i : Nat)
    (row : Row) (rest : List Row) (e : String),
    (∀ r ∈ pre, validateSample r = .ok ()) → validateSample row = .error e →
    processRows ck i (pre ++ row :: rest) =
      .error (e ++ " On line " ++ toString (i + pre.length + 2) ++ ".")
  | [], ck, i, row, rest, e, _, he => by
    simp only [List.nil_append, processRows, validateAndTransform, he, List.length_nil,
      Nat.add_zero]
  | p :: pre, ck, i, row, rest, e, hpre, he => by
    have hp : validateSample p = .ok () := hpre p (List.mem_cons_self p pre)
    simp only [List.cons_append, processRows, validateAndTransform, hp]
    have hrec := processRows_error_first pre
      ⟨setInsert ck.seen (getCol p "sample"), ck.modified ++ [p]⟩ (i + 1) row rest e
      (fun r hr => hpre r (List.mem_cons_of_mem p hr)) he
    have harith : i + 1 + pre.length + 2 = i + (p :: pre).length + 2 := by
      simp only [List.length_cons]
      omega
    exact harith ▸ hrec

theorem processRows_error_of_bad : ∀ (rows : List Row) (ck : RowChecker) (i : Nat),
    (∃ r ∈ rows, validateSample r ≠ .ok ()) → ∃ e, processRows ck i rows = .error e
  | [], _, _, h => by simp at h
  | row :: rest, ck, i, h => by
    cases hv : validateSample row with
    | error e =>
      refine ⟨e ++ " On line " ++ toString (i + 2) ++ ".", ?_⟩
      simp only [processRows, validateAndTransform, hv]
    | ok u =>
      cases u
      have hrest : ∃ r ∈ rest, validateSample r ≠ .ok () := by
        rcases h with ⟨r, hr, hne⟩
        rcases List.mem_cons.mp hr with rfl | hr2
        · exact absurd hv hne
        · exact ⟨r, hr2, hne⟩
      rcases processRows_error_of_bad rest
        ⟨setInsert ck.seen (getCol row "sample"), ck.modified ++ [row]⟩ (i + 1) hrest with ⟨e, he⟩
      refine ⟨e, ?_⟩
      simp only [processRows, validateAndTransform, hv]
      exact he

/-! ### Renaming lemmas -/

theorem string_append_cancel {x : String} {s t : String} (h : s ++ x = t ++ x) : s = t := by
  apply strExt
  have hd : s.data ++ x.data = t.data ++ x.data := congrArg String.data h
  exact List.append_cancel_right hd

theorem renameRowsAux_T1 : ∀ (rows : List Row) (cnt : String → Nat),
    (samplesOf rows).Nodup → (∀ s ∈ samplesOf rows, cnt s = 0) →
    renameRowsAux cnt rows =
      rows.map (fun r => setCol r "sample" (getCol r "sample" ++ "_T1"))
  | [], _, _, _ => rfl
  | row :: rest, cnt, hnd, hz => by
    have hcons : samplesOf (row :: rest) = getCol row "sample" :: samplesOf rest := rfl
    rw [hcons, List.nodup_cons] at hnd
    have hs0 : cnt (getCol row "sample") = 0 := by
      apply hz
      rw [hcons]
      exact List.mem_cons_self _ _
    have hz2 : ∀ s ∈ samplesOf rest,
        (fun t => if t = getCol row "sample" then cnt (getCol row "sample") + 1 else cnt t) s = 0 := by
      intro s hs
      have hne : s ≠ getCol row "sample" := fun hEq => hnd.1 (hEq ▸ hs)
      simp only [if_neg hne]
      apply hz
      rw [hcons]
      exact List.mem_cons_of_mem _ hs
    have hunf : renameRowsAux cnt (row :: rest) =
        setCol row "sample"
            (getCol row "sample" ++ "_T" ++ toString (cnt (getCol row "sample") + 1)) ::
          renameRowsAux
            (fun t => if t = getCol row "sample" then cnt (getCol row "sample") + 1 else cnt t)
            rest := rfl
    have hval : getCol row "sample" ++ "_T" ++ toString (cnt (getCol row "sample") + 1) =
        getCol row "sample" ++ "_T1" := by
      rw [hs0, strAppend_assoc]
      exact congrArg (fun z => getCol row "sample" ++ z) (by decide)
    rw [hunf, hval, renameRowsAux_T1 rest _ hnd.2 hz2]
    rfl

theorem samplesOf_map_T1 (rows : List Row)
    (hk : ∀ r ∈ rows, "sample" ∈ r.map Prod.fst) :
    samplesOf (rows.map (fun r => setCol r "sample" (getCol r "sample" ++ "_T1"))) =
      (samplesOf rows).map (fun s => s ++ "_T1") := by
  unfold samplesOf
  rw [List.map_map, List.map_map]
  apply List.map_congr_left
  intro r hr
  exact getCol_setCol_self _ (hk r hr)

/-! ### `check_samplesheet` frame lemmas -/

theorem mem_insertSecond {x a : String} : ∀ {l : List String},
    x ∈ insertSecond a l ↔ x = a ∨ x ∈ l
  | [] => by simp [insertSecond]
  | h :: t => by
    simp only [insertSecond, List.mem_cons]
    tauto

theorem length_insertSecond (a : String) : ∀ (l : List String),
    (insertSecond a l).length = l.length + 1
  | [] => rfl
  | h :: t => by
    simp only [insertSecond, List.length_cons]

theorem checkSamplesheet_header_ok {fn : List String} (rows : List Row)
    (h : ∀ c ∈ requiredColumns, c ∈ fn) :
    checkSamplesheet true fn rows = validateRowsAndWrite fn rows := by
  unfold checkSamplesheet
  have hall : requiredColumns.all (fun c => decide (c ∈ fn)) = true := by
    rw [List.all_eq_true]
    intro c hc
    exact decide_eq_true (h c hc)
  rw [hall]
  rfl

theorem checkSamplesheet_header_missing {fn : List String} (rows : List Row)
    (h : ¬∀ c ∈ requiredColumns, c ∈ fn) :
    checkSamplesheet true fn rows = .error (headerErr fn) := by
  cases hb : requiredColumns.all (fun c => decide (c ∈ fn)) with
  | true =>
    exact absurd (fun c hc => of_decide_eq_true (List.all_eq_true.mp hb c hc)) h
  | false =>
    unfold checkSamplesheet
    rw [hb]
    rfl

theorem strContains_joinComma : ∀ {l : List String} {c : String}, c ∈ l →
    strContains (joinComma l) c = true
  | [], c, h => absurd h (List.not_mem_nil c)
  | [x], c, h => by
    simp only [List.mem_singleton] at h
    subst h
    exact strContains_self c
  | x :: y :: t, c, h => by
    rcases List.mem_cons.mp h with rfl | h2
    · show strContains (c ++ ", " ++ joinComma (y :: t)) c = true
      exact strContains_left _ (strContains_left _ (strContains_self c))
    · show strContains (x ++ ", " ++ joinComma (y :: t)) c = true
      exact strContains_right _ (strContains_joinComma h2)

theorem headerErr_mentions_required {fn : List String} {c : String}
    (h : c ∈ requiredColumns) : strContains (headerErr fn) c = true := by
  unfold headerErr
  exact strContains_left _ (strContains_left _
    (strContains_right _ (strContains_joinComma h)))

theorem headerErr_mentions_found {fn : List String} {c : String}
    (h : c ∈ fn) : strContains (headerErr fn) c = true := by
  unfold headerErr
  exact strContains_right _ (strContains_joinComma h)

/-! ### Per-row validation characterization -/

theorem validateSample_ok_iff (row : Row) :
    validateSample row = .ok () ↔
      (strEndsWith (getCol row "vcf") ".vcf.gz" = true ∧
        strEndsWith (getCol row "traits") "_traits-json.json" = true ∧
        strEndsWith (getCol row "ancestry") "_ancestry-json.json" = true) := by
  unfold validateSample
  cases h1 : strEndsWith (getCol row "vcf") ".vcf.gz" <;>
    cases h2 : strEndsWith (getCol row "traits") "_traits-json.json" <;>
      cases h3 : strEndsWith (getCol row "ancestry") "_ancestry-json.json" <;>
        simp [h1, h2, h3]

theorem validateSample_err_vcf {row : Row}
    (h : strEndsWith (getCol row "vcf") ".vcf.gz" = false) :
    validateSample row = .error (vcfMsg (getCol row "vcf")) := by
  unfold validateSample
  rw [h]
  rfl

theorem validateSample_err_traits {row : Row}
    (h1 : strEndsWith (getCol row "vcf") ".vcf.gz" = true)
    (h2 : strEndsWith (getCol row "traits") "_traits-json.json" = false) :
    validateSample row = .error (traitsMsg (getCol row "traits")) := by
  unfold validateSample
  rw [h1, h2]
  rfl

theorem validateSample_err_ancestry {row : Row}
    (h1 : strEndsWith (getCol row "vcf") ".vcf.gz" = true)
    (h2 : strEndsWith (getCol row "traits") "_traits-json.json" = true)
    (h3 : strEndsWith (getCol row "ancestry") "_ancestry-json.json" = false) :
    validateSample row = .error (ancestryMsg (getCol row "ancestry")) := by
  unfold validateSample
  rw [h1, h2, h3]
  rfl

theorem vcfMsg_contains_value (v : String) : strContains (vcfMsg v) v = true :=
  strContains_mid _ v _

theorem vcfMsg_contains_ext (v : String) : strContains (vcfMsg v) "vcf.gz" = true := by
  unfold vcfMsg
  have hsplit : (". The valid VCF extension should be: vcf.gz." : String) =
      ". The valid VCF extension should be: " ++ "vcf.gz" ++ "." := by decide
  rw [hsplit]
  exact strContains_right _ (strContains_left _ (strContains_right _ (strContains_self _)))

theorem traitsMsg_contains_value (v : String) : strContains (traitsMsg v) v = true :=
  strContains_mid _ v _

theorem traitsMsg_contains_ext (v : String) :
    strContains (traitsMsg v) "_traits-json.json" = true := by
  unfold traitsMsg
  have hsplit : (". The valid VCF extension should be: _traits-json.json." : String) =
      ". The valid VCF extension should be: " ++ "_traits-json.json" ++ "." := by decide
  rw [hsplit]
  exact strContains_right _ (strContains_left _ (strContains_right _ (strContains_self _)))

theorem ancestryMsg_contains_value (v : String) : strContains (ancestryMsg v) v = true :=
  strContains_mid _ v _

theorem ancestryMsg_contains_ext (v : String) :
    strContains (ancestryMsg v) "_ancestry-json.json" = true := by
  unfold ancestryMsg
  have hsplit : (". The valid VCF extension should be: _ancestry-json.json." : String) =
      ". The valid VCF extension should be: " ++ "_ancestry-json.json" ++ "." := by decide
  rw [hsplit]
  exact strContains_right _ (strContains_left _ (strContains_right _ (strContains_self _)))

/-! ### Uniqueness/renaming phase characterization -/

theorem validateUniqueSamples_ok (ck : RowChecker)
    (h : ck.seen.length = ck.modified.length) :
    validateUniqueSamples ck = .ok (renameRows ck.modified) := by
  unfold validateUniqueSamples
  rw [if_neg (not_ne_iff.mpr h)]

theorem validateUniqueSamples_err (ck : RowChecker)
    (h : ck.seen.length ≠ ck.modified.length) :
    validateUniqueSamples ck = .error uniqueErr := by
  unfold validateUniqueSamples
  rw [if_pos h]

theorem validateUniqueSamples_ok_inv {ck : RowChecker} {out : List Row}
    (h : validateUniqueSamples ck = .ok out) :
    ck.seen.length = ck.modified.length := by
  by_contra hne
  rw [validateUniqueSamples_err ck hne] at h
  exact Except.noConfusion h

theorem renameRows_T1 {rows : List Row} (hnd : (samplesOf rows).Nodup) :
    renameRows rows = rows.map (fun r => setCol r "sample" (getCol r "sample" ++ "_T1")) :=
  renameRowsAux_T1 rows (fun _ => 0) hnd (fun _ _ => rfl)

/-! ### Whole-run lemmas -/

theorem validateRowsAndWrite_eq (fn : List String) (rows : List Row) (ck : RowChecker)
    (hpr : processRows ⟨[], []⟩ 0 rows = .ok ck) :
    validateRowsAndWrite fn rows =
      match validateUniqueSamples ck with
      | .error e => .error e
      | .ok renamed =>
        .ok (insertSecond "single_end" fn,
          renamed.map (writeRow (insertSecond "single_end" fn))) := by
  unfold validateRowsAndWrite
  rw [hpr]

theorem validateRowsAndWrite_ok {fn : List String} {rows : List Row}
    (hvalid : ∀ r ∈ rows, validateSample r = .ok ())
    (hnd : (samplesOf rows).Nodup) :
    validateRowsAndWrite fn rows =
      .ok (insertSecond "single_end" fn,
        (rows.map (fun r => setCol r "sample" (getCol r "sample" ++ "_T1"))).map
          (writeRow (insertSecond "single_end" fn))) := by
  have hpr2 : processRows ⟨[], []⟩ 0 rows = .ok ⟨addSeen [] (samplesOf rows), rows⟩ := by
    simpa using processRows_ok rows ⟨[], []⟩ 0 hvalid
  rw [validateRowsAndWrite_eq fn rows ⟨addSeen [] (samplesOf rows), rows⟩ hpr2]
  have hlen : (addSeen [] (samplesOf rows)).length = rows.length := by
    rw [length_addSeen_dedup, (dedup_length_iff _).mpr hnd]
    simp [samplesOf]
  rw [validateUniqueSamples_ok ⟨addSeen [] (samplesOf rows), rows⟩ hlen]
  rw [show (RowChecker.mk (addSeen [] (samplesOf rows)) rows).modified = rows from rfl,
    renameRows_T1 hnd]

theorem checkSamplesheet_error_of_badRow {fn : List String} {rows : List Row} {row : Row}
    (hmem : row ∈ rows) (hbad : validateSample row ≠ .ok ()) :
    ∃ e, checkSamplesheet true fn rows = .error e := by
  by_cases hsub : ∀ c ∈ requiredColumns, c ∈ fn
  · rw [checkSamplesheet_header_ok rows hsub]
    unfold validateRowsAndWrite
    rcases processRows_error_of_bad rows ⟨[], []⟩ 0 ⟨row, hmem, hbad⟩ with ⟨e, he⟩
    rw [he]
    exact ⟨e, rfl⟩
  · exact ⟨headerErr fn, checkSamplesheet_header_missing rows hsub⟩

theorem checkSamplesheet_ok_inv {hh : Bool} {fn : List String} {rows : List Row}
    {out : List String × List (List String)}
    (h : checkSamplesheet hh fn rows = .ok out) :
    hh = true ∧ (∀ c ∈ requiredColumns, c ∈ fn) ∧
      (∀ r ∈ rows, validateSample r = .ok ()) ∧ (samplesOf rows).Nodup := by
  cases hh with
  | false =>
    rw [checkSamplesheet] at h
    exact Except.noConfusion h
  | true =>
    by_cases hsub : ∀ c ∈ requiredColumns, c ∈ fn
    · rw [checkSamplesheet_header_ok rows hsub] at h
      cases hpr : processRows ⟨[], []⟩ 0 rows with
      | error e =>
        unfold validateRowsAndWrite at h
        rw [hpr] at h
        exact Except.noConfusion h
      | ok ck =>
        have hvalid : ∀ r ∈ rows, validateSample r = .ok () :=
          processRows_ok_inv rows ⟨[], []⟩ 0 ck hpr
        rw [validateRowsAndWrite_eq fn rows ck hpr] at h
        cases hvu : validateUniqueSamples ck with
        | error e =>
          rw [hvu] at h
          exact Except.noConfusion h
        | ok renamed =>
          have hpr2 : processRows ⟨[], []⟩ 0 rows =
              .ok ⟨addSeen [] (samplesOf rows), rows⟩ := by
            simpa using processRows_ok rows ⟨[], []⟩ 0 hvalid
          have hck : ck = ⟨addSeen [] (samplesOf rows), rows⟩ :=
            Except.ok.inj (hpr.symm.trans hpr2)
          have h1 := validateUniqueSamples_ok_inv hvu
          have hnd : (samplesOf rows).Nodup := by
            apply (dedup_length_iff (samplesOf rows)).mp
            have h2 : (addSeen [] (samplesOf rows)).length = rows.length := by
              rw [hck] at h1
              simpa using h1
            rw [length_addSeen_dedup] at h2
            rw [h2]
            simp [samplesOf]
          exact ⟨rfl, hsub, hvalid, hnd⟩
    · rw [checkSamplesheet_header_missing rows hsub] at h
      exact Except.noConfusion h

theorem writeRow_setCol_T1 {fn : List String} {row : Row}
    (hwf : row.map Prod.fst = fn) (hsamp : "sample" ∈ fn) (hse : "single_end" ∉ fn) :
    writeRow (insertSecond "single_end" fn) (setCol row "sample" (getCol row "sample" ++ "_T1")) =
      (insertSecond "single_end" fn).map (fun c =>
        if c = "sample" then getCol row "sample" ++ "_T1"
        else if c = "single_end" then "" else getCol row c) := by
  unfold writeRow
  apply List.map_congr_left
  intro c hc
  rcases mem_insertSecond.mp hc with rfl | hcf
  · have h1 : ("single_end" : String) ≠ "sample" := by decide
    rw [if_neg h1, if_pos rfl]
    have hnk : "single_end" ∉
        (setCol row "sample" (getCol row "sample" ++ "_T1")).map Prod.fst := by
      rw [keys_setCol, hwf]
      exact hse
    rw [lookup_eq_none hnk]
    rfl
  · by_cases hcs : c = "sample"
    · subst hcs
      rw [if_pos rfl]
      have hks : "sample" ∈ row.map Prod.fst := hwf ▸ hsamp
      rw [lookup_setCol_self (getCol row "sample" ++ "_T1") hks]
      rfl
    · rw [if_neg hcs]
      have hcse : c ≠ "single_end" := fun hEq => hse (hEq ▸ hcf)
      rw [if_neg hcse, lookup_setCol_ne hcs]
      rfl

/-! ### Claim theorems -/

/-- C1: the claim (and the docstring of `validate_unique_samples`) expects
two rows with the same sample but different vcf values to succeed and be
renamed `S1_T1`, `S1_T2`; the code instead records only the sample value in
`_seen`, so `len(_seen) = 1 < 2 = len(modified)` and the run aborts with
the uniqueness error before producing any output. -/
theorem c1_duplicate_sample_rejected :
    checkSamplesheet true fourCols [rowS1, rowS1b] = .error uniqueErr := rfl

/-- C2 counterexample: running the tool on the single valid row `S1`
yields sample `S1_T1`; feeding that output back in (dropping `single_end`)
yields `S1_T1_T1`, so the second run does change row content. -/
theorem c2_counterexample :
    checkSamplesheet true fourCols [rowS1] =
      .ok (["sample", "single_end", "vcf", "traits", "ancestry"],
        [["S1_T1", "", "S1.vcf.gz", "S1_traits-json.json", "S1_ancestry-json.json"]]) ∧
    checkSamplesheet true fourCols [rowS1Renamed] =
      .ok (["sample", "single_end", "vcf", "traits", "ancestry"],
        [["S1_T1_T1", "", "S1.vcf.gz", "S1_traits-json.json", "S1_ancestry-json.json"]]) ∧
    ("S1_T1_T1" : String) ≠ "S1_T1" :=
  ⟨rfl, rfl, by decide⟩

/-- C2 (amended): re-running the validate-and-rename transformation on its
own output is not the identity; it changes each row exactly by appending
one further `_T1` to the sample value, leaving all other fields unchanged. -/
theorem c2_rerun_appends_T1 (rows : List Row)
    (hnd : (samplesOf rows).Nodup)
    (hk : ∀ r ∈ rows, "sample" ∈ r.map Prod.fst) :
    renameRows (renameRows rows) =
      (renameRows rows).map (fun r => setCol r "sample" (getCol r "sample" ++ "_T1")) := by
  rw [renameRows_T1 hnd]
  have hs2 : samplesOf (rows.map (fun r => setCol r "sample" (getCol r "sample" ++ "_T1"))) =
      (samplesOf rows).map (fun s => s ++ "_T1") := samplesOf_map_T1 rows hk
  have hnd2 : (samplesOf
      (rows.map (fun r => setCol r "sample" (getCol r "sample" ++ "_T1")))).Nodup := by
    rw [hs2]
    exact hnd.map (fun a b hab => string_append_cancel hab)
  rw [renameRows_T1 hnd2]

/-- C2 witness: the amended statement instantiated on the concrete valid
single-row sheet. -/
theorem c2_rerun_witness :
    renameRows (renameRows [rowS1]) =
      (renameRows [rowS1]).map (fun r => setCol r "sample" (getCol r "sample" ++ "_T1")) :=
  c2_rerun_appends_T1 [rowS1] (by decide) (by decide)

/-- C3: renaming runs only under the precondition that the number of
distinct sample values equals the number of accepted rows.  If the counts
differ, the run aborts with the uniqueness error (an `Except.error`, which
carries no renamed rows, so no sample field has been rewritten); and
whenever `validate_unique_samples` returns renamed rows, the precondition
held. -/
theorem c3_uniqueness_precondition (fn : List String) (rows : List Row) :
    ((∀ c ∈ requiredColumns, c ∈ fn) → (∀ r ∈ rows, validateSample r = .ok ()) →
      (samplesOf rows).dedup.length ≠ rows.length →
      checkSamplesheet true fn rows = .error uniqueErr) ∧
    (∀ (ck : RowChecker) (out : List Row), validateUniqueSamples ck = .ok out →
      ck.seen.length = ck.modified.length) := by
  constructor
  · intro hsub hvalid hdup
    rw [checkSamplesheet_header_ok rows hsub]
    have hpr2 : processRows ⟨[], []⟩ 0 rows = .ok ⟨addSeen [] (samplesOf rows), rows⟩ := by
      simpa using processRows_ok rows ⟨[], []⟩ 0 hvalid
    rw [validateRowsAndWrite_eq fn rows ⟨addSeen [] (samplesOf rows), rows⟩ hpr2]
    have hne : (addSeen [] (samplesOf rows)).length ≠ rows.length := by
      rw [length_addSeen_dedup]
      exact hdup
    rw [validateUniqueSamples_err ⟨addSeen [] (samplesOf rows), rows⟩ hne]
  · intro ck out h
    exact validateUniqueSamples_ok_inv h

/-- C3 witness: the duplicate-sample sheet aborts with the uniqueness
error, and a checker state that renames successfully satisfies the count
precondition. -/
theorem c3_witness :
    checkSamplesheet true fourCols [rowS1, rowS1b] = .error uniqueErr ∧
    (["S1"] : List String).length = ([rowS1] : List Row).length :=
  ⟨(c3_uniqueness_precondition fourCols [rowS1, rowS1b]).1 (by decide)
      (by
        intro r hr
        rcases List.mem_cons.mp hr with rfl | hr2
        · rfl
        · rcases List.mem_cons.mp hr2 with rfl | hr3
          · rfl
          · exact absurd hr3 (List.not_mem_nil r))
      (by decide),
    (c3_uniqueness_precondition fourCols [rowS1]).2 ⟨["S1"], [rowS1]⟩
      (renameRows [rowS1]) rfl⟩

/-- C4 counterexample: for the bad vcf value `S1.vcf` the diagnostic names
the offending value, but the expected suffix `.vcf.gz` does not occur in
the message — it is rendered without its leading dot (`vcf.gz`), so the
claim that the diagnostic names the expected suffix fails as stated. -/
theorem c4_counterexample :
    validateSample badVcfRow =
      .error "Unexpected VCF file extension: S1.vcf. The valid VCF extension should be: vcf.gz." ∧
    strContains
      "Unexpected VCF file extension: S1.vcf. The valid VCF extension should be: vcf.gz."
      ".vcf.gz" = false :=
  ⟨rfl, by decide⟩

/-- C4 (amended): a row is accepted iff its vcf, traits and ancestry
values end with `.vcf.gz`, `_traits-json.json`, `_ancestry-json.json`
respectively; on a failure the raised diagnostic names the offending value
and names the expected suffix, except that for the vcf check the suffix is
rendered without its leading dot (`vcf.gz`); and a failing row makes the
whole run abort with an error. -/
theorem c4_suffix_checks_and_diagnostics (row : Row) :
    (validateSample row = .ok () ↔
      (".vcf.gz".data <:+ (getCol row "vcf").data ∧
        "_traits-json.json".data <:+ (getCol row "traits").data ∧
        "_ancestry-json.json".data <:+ (getCol row "ancestry").data)) ∧
    (¬ ".vcf.gz".data <:+ (getCol row "vcf").data →
      validateSample row = .error (vcfMsg (getCol row "vcf")) ∧
      strContains (vcfMsg (getCol row "vcf")) (getCol row "vcf") = true ∧
      strContains (vcfMsg (getCol row "vcf")) "vcf.gz" = true) ∧
    (".vcf.gz".data <:+ (getCol row "vcf").data →
      ¬ "_traits-json.json".data <:+ (getCol row "traits").data →
      validateSample row = .error (traitsMsg (getCol row "traits")) ∧
      strContains (traitsMsg (getCol row "traits")) (getCol row "traits") = true ∧
      strContains (traitsMsg (getCol row "traits")) "_traits-json.json" = true) ∧
    (".vcf.gz".data <:+ (getCol row "vcf").data →
      "_traits-json.json".data <:+ (getCol row "traits").data →
      ¬ "_ancestry-json.json".data <:+ (getCol row "ancestry").data →
      validateSample row = .error (ancestryMsg (getCol row "ancestry")) ∧
      strContains (ancestryMsg (getCol row "ancestry")) (getCol row "ancestry") = true ∧
      strContains (ancestryMsg (getCol row "ancestry")) "_ancestry-json.json" = true) ∧
    (∀ (fn : List String) (rows : List Row), row ∈ rows → validateSample row ≠ .ok () →
      ∃ e, checkSamplesheet true fn rows = .error e) := by
  refine ⟨?_, ?_, ?_, ?_, ?_⟩
  · rw [validateSample_ok_iff]
    simp only [strEndsWith_iff]
  · intro hv
    have hb : strEndsWith (getCol row "vcf") ".vcf.gz" = false := by
      cases hbb : strEndsWith (getCol row "vcf") ".vcf.gz" with
      | true => exact absurd ((strEndsWith_iff _ _).mp hbb) hv
      | false => rfl
    exact ⟨validateSample_err_vcf hb, vcfMsg_contains_value _, vcfMsg_contains_ext _⟩
  · intro hv ht
    have hb : strEndsWith (getCol row "traits") "_traits-json.json" = false := by
      cases hbb : strEndsWith (getCol row "traits") "_traits-json.json" with
      | true => exact absurd ((strEndsWith_iff _ _).mp hbb) ht
      | false => rfl
    exact ⟨validateSample_err_traits ((strEndsWith_iff _ _).mpr hv) hb,
      traitsMsg_contains_value _, traitsMsg_contains_ext _⟩
  · intro hv ht ha
    have hb : strEndsWith (getCol row "ancestry") "_ancestry-json.json" = false := by
      cases hbb : strEndsWith (getCol row "ancestry") "_ancestry-json.json" with
      | true => exact absurd ((strEndsWith_iff _ _).mp hbb) ha
      | false => rfl
    exact ⟨validateSample_err_ancestry ((strEndsWith_iff _ _).mpr hv)
      ((strEndsWith_iff _ _).mpr ht) hb,
      ancestryMsg_contains_value _, ancestryMsg_contains_ext _⟩
  · intro fn rows hmem hbad
    exact checkSamplesheet_error_of_badRow hmem hbad

/-- C4 witness: the characterization applied to the concrete valid row
(acceptance direction) and to the concrete bad-vcf row (error direction). -/
theorem c4_witness :
    validateSample rowS1 = .ok () ∧
    validateSample badVcfRow = .error (vcfMsg (getCol badVcfRow "vcf")) :=
  ⟨(c4_suffix_checks_and_diagnostics rowS1).1.mpr
      ⟨⟨"S1".data, by decide⟩, ⟨"S1".data, by decide⟩, ⟨"S1".data, by decide⟩⟩,
    ((c4_suffix_checks_and_diagnostics badVcfRow).2.1
      (by
        intro hsuf
        have hb := (strEndsWith_iff (getCol badVcfRow "vcf") ".vcf.gz").mpr hsuf
        exact absurd hb (by decide))).1⟩

/-- C5 counterexample: on an input whose header already contains a
`single_end` column with a non-empty value, the output's `single_end`
columns carry that value, not the empty string, so the claim fails as
stated for this valid input. -/
theorem c5_counterexample :
    checkSamplesheet true ["sample", "single_end", "vcf", "traits", "ancestry"]
        [rowWithSingleEnd] =
      .ok (["sample", "single_end", "single_end", "vcf", "traits", "ancestry"],
        [["S1_T1", "x", "x", "S1.vcf.gz", "S1_traits-json.json", "S1_ancestry-json.json"]]) ∧
    ("x" : String) ≠ "" :=
  ⟨rfl, by decide⟩

/-- C5 (amended): for every valid input whose header does not already
contain a `single_end` column, the run succeeds with header equal to the
input header with `single_end` inserted at position 1, one output record
per input row, each of width `input columns + 1`, whose `sample` entry is
the renamed value, whose inserted `single_end` entry (position 1) is
empty, and whose every other entry is the input row's value verbatim. -/
theorem c5_output_shape (fn : List String) (rows : List Row)
    (hsub : ∀ c ∈ requiredColumns, c ∈ fn)
    (hse : "single_end" ∉ fn)
    (hwf : ∀ r ∈ rows, r.map Prod.fst = fn)
    (hvalid : ∀ r ∈ rows, validateSample r = .ok ())
    (hnd : (samplesOf rows).Nodup) :
    checkSamplesheet true fn rows =
      .ok (insertSecond "single_end" fn, specExpectedOutput fn rows) ∧
    (insertSecond "single_end" fn).length = fn.length + 1 ∧
    (specExpectedOutput fn rows).length = rows.length ∧
    (∀ out ∈ specExpectedOutput fn rows, out.length = fn.length + 1) ∧
    (∀ out ∈ specExpectedOutput fn rows, out.get? 1 = some "") := by
  have hsamp : "sample" ∈ fn := hsub "sample" (by decide)
  have hout : (rows.map (fun r => setCol r "sample" (getCol r "sample" ++ "_T1"))).map
      (writeRow (insertSecond "single_end" fn)) = specExpectedOutput fn rows := by
    unfold specExpectedOutput
    rw [List.map_map]
    apply List.map_congr_left
    intro r hr
    show writeRow (insertSecond "single_end" fn)
      (setCol r "sample" (getCol r "sample" ++ "_T1")) = _
    exact writeRow_setCol_T1 (hwf r hr) hsamp hse
  refine ⟨?_, length_insertSecond _ fn, ?_, ?_, ?_⟩
  · rw [checkSamplesheet_header_ok rows hsub, validateRowsAndWrite_ok hvalid hnd, hout]
  · unfold specExpectedOutput
    rw [List.length_map]
  · intro out hmem
    rcases List.mem_map.mp hmem with ⟨r, hr, rfl⟩
    rw [List.length_map, length_insertSecond]
  · intro out hmem
    rcases List.mem_map.mp hmem with ⟨r, hr, rfl⟩
    cases fn with
    | nil => exact absurd hsamp (List.not_mem_nil _)
    | cons h t =>
      show (((h :: "single_end" :: t)).map _).get? 1 = some ""
      simp

/-- C5 witness: the amended statement's success equation instantiated on
the concrete single-row sheet over the four-column header. -/
theorem c5_witness :
    checkSamplesheet true fourCols [rowS1] =
      .ok (insertSecond "single_end" fourCols, specExpectedOutput fourCols [rowS1]) :=
  (c5_output_shape fourCols [rowS1] (by decide) (by decide) (by decide)
    (by
      intro r hr
      rcases List.mem_cons.mp hr with rfl | hr2
      · rfl
      · exact absurd hr2 (List.not_mem_nil r))
    (by decide)).1

/-- C6: when the parsed header is not a superset of the required columns
the run aborts with a diagnostic mentioning every required column name and
every column name actually found; when it is a superset (extra columns
allowed) the run proceeds to row validation. -/
theorem c6_header_check (fn : List String) (rows : List Row) :
    (¬(∀ c ∈ requiredColumns, c ∈ fn) →
      checkSamplesheet true fn rows = .error (headerErr fn) ∧
      (∀ c ∈ requiredColumns, strContains (headerErr fn) c = true) ∧
      (∀ c ∈ fn, strContains (headerErr fn) c = true)) ∧
    ((∀ c ∈ requiredColumns, c ∈ fn) →
      checkSamplesheet true fn rows = validateRowsAndWrite fn rows) := by
  constructor
  · intro h
    exact ⟨checkSamplesheet_header_missing rows h,
      fun c hc => headerErr_mentions_required hc,
      fun c hc => headerErr_mentions_found hc⟩
  · intro h
    exact checkSamplesheet_header_ok rows h

/-- C6 witness: a header missing `traits`/`ancestry` aborts with the
header diagnostic, and the full four-column header proceeds to row
validation. -/
theorem c6_witness :
    checkSamplesheet true ["sample", "vcf"] [] = .error (headerErr ["sample", "vcf"]) ∧
    checkSamplesheet true fourCols [] = validateRowsAndWrite fourCols [] :=
  ⟨((c6_header_check ["sample", "vcf"] []).1 (by decide)).1,
    (c6_header_check fourCols []).2 (by decide)⟩

/-- C7: when the first failing data row is the `i`-th parsed row (0-based;
here `i = pre.length`), the run aborts with the row's diagnostic suffixed
by the 1-based input line number `i + 2` (the header counting as line 1). -/
theorem c7_line_number (fn : List String) (pre rest : List Row) (row : Row) (e : String)
    (hsub : ∀ c ∈ requiredColumns, c ∈ fn)
    (hpre : ∀ r ∈ pre, validateSample r = .ok ())
    (hrow : validateSample row = .error e) :
    checkSamplesheet true fn (pre ++ row :: rest) =
      .error (e ++ " On line " ++ toString (pre.length + 2) ++ ".") := by
  rw [checkSamplesheet_header_ok _ hsub]
  unfold validateRowsAndWrite
  have h := processRows_error_first pre ⟨[], []⟩ 0 row rest e hpre hrow
  have h2 : (0 : Nat) + pre.length + 2 = pre.length + 2 := by omega
  rw [h2] at h
  rw [h]

/-- C7 witness: the bad-vcf row as the first (and only) data row is
reported on line 2. -/
theorem c7_witness :
    checkSamplesheet true fourCols ([] ++ badVcfRow :: []) =
      .error (vcfMsg "S1.vcf" ++ " On line " ++ toString (([] : List Row).length + 2) ++ ".") :=
  c7_line_number fourCols [] [] badVcfRow (vcfMsg "S1.vcf") (by decide)
    (fun r hr => absurd hr (List.not_mem_nil r)) rfl

/-- C8: the output exists only when every validation step passed — the
sniffer found a header, the header contains the required columns, every
row passed the suffix checks, and the sample values are globally distinct.
Contrapositively, any validation failure yields an `Except.error`, which
models aborting before the output file is ever opened, leaving any prior
output artifact untouched. -/
theorem c8_no_output_on_failure (hh : Bool) (fn : List String) (rows : List Row)
    (out : List String × List (List String))
    (h : checkSamplesheet hh fn rows = .ok out) :
    hh = true ∧ (∀ c ∈ requiredColumns, c ∈ fn) ∧
      (∀ r ∈ rows, validateSample r = .ok ()) ∧ (samplesOf rows).Nodup :=
  checkSamplesheet_ok_inv h

/-- C8 witness: the successful single-row run certifies that its input
passed every validation step. -/
theorem c8_witness : true = true ∧ (samplesOf [rowS1]).Nodup :=
  ⟨(c8_no_output_on_failure true fourCols [rowS1]
      (["sample", "single_end", "vcf", "traits", "ancestry"],
        [["S1_T1", "", "S1.vcf.gz", "S1_traits-json.json", "S1_ancestry-json.json"]]) rfl).1,
    (c8_no_output_on_failure true fourCols [rowS1]
      (["sample", "single_end", "vcf", "traits", "ancestry"],
        [["S1_T1", "", "S1.vcf.gz", "S1_traits-json.json", "S1_ancestry-json.json"]]) rfl).2.2.2⟩

/-- C9: whenever the renaming pass runs without raising — that is, the
seen-count equals the row-count after processing — every sample value in
the sheet was distinct, and every output row's sample is exactly its
original value with `_T1` appended; `_T2` and beyond are unreachable. -/
theorem c9_all_samples_T1 (rows : List Row) (ck : RowChecker)
    (hpr : processRows ⟨[], []⟩ 0 rows = .ok ck)
    (hlen : ck.seen.length = ck.modified.length) :
    (samplesOf rows).Nodup ∧
    validateUniqueSamples ck =
      .ok (rows.map (fun r => setCol r "sample" (getCol r "sample" ++ "_T1"))) := by
  have hvalid := processRows_ok_inv rows ⟨[], []⟩ 0 ck hpr
  have hpr2 : processRows ⟨[], []⟩ 0 rows = .ok ⟨addSeen [] (samplesOf rows), rows⟩ := by
    simpa using processRows_ok rows ⟨[], []⟩ 0 hvalid
  have hck : ck = ⟨addSeen [] (samplesOf rows), rows⟩ := Except.ok.inj (hpr.symm.trans hpr2)
  subst hck
  have hnd : (samplesOf rows).Nodup := by
    apply (dedup_length_iff (samplesOf rows)).mp
    have h2 : (addSeen [] (samplesOf rows)).length = rows.length := by simpa using hlen
    rw [length_addSeen_dedup] at h2
    rw [h2]
    simp [samplesOf]
  refine ⟨hnd, ?_⟩
  rw [validateUniqueSamples_ok ⟨addSeen [] (samplesOf rows), rows⟩ hlen]
  rw [show (RowChecker.mk (addSeen [] (samplesOf rows)) rows).modified = rows from rfl,
    renameRows_T1 hnd]

/-- C9 witness: the single-row checker state renames `S1` to `S1_T1`. -/
theorem c9_witness :
    (samplesOf [rowS1]).Nodup ∧
    validateUniqueSamples ⟨["S1"], [rowS1]⟩ =
      .ok ([rowS1].map (fun r => setCol r "sample" (getCol r "sample" ++ "_T1"))) :=
  c9_all_samples_T1 [rowS1] ⟨["S1"], [rowS1]⟩ rfl rfl

/-- C10: per-row validation reads only the vcf, traits and ancestry
values: a row with the three required suffixes is accepted whatever its
sample value, rewriting the sample entry never changes the verdict, and
the concrete sheet whose sample is the empty string succeeds with output
sample `_T1`. -/
theorem c10_sample_unconstrained (row : Row)
    (hv : ".vcf.gz".data <:+ (getCol row "vcf").data)
    (ht : "_traits-json.json".data <:+ (getCol row "traits").data)
    (ha : "_ancestry-json.json".data <:+ (getCol row "ancestry").data) :
    validateSample row = .ok () ∧
    (∀ v, validateSample (setCol row "sample" v) = validateSample row) ∧
    checkSamplesheet true fourCols [emptySampleRow] =
      .ok (["sample", "single_end", "vcf", "traits", "ancestry"],
        [["_T1", "", "E.vcf.gz", "E_traits-json.json", "E_ancestry-json.json"]]) := by
  refine ⟨?_, ?_, rfl⟩
  · rw [validateSample_ok_iff]
    exact ⟨(strEndsWith_iff _ _).mpr hv, (strEndsWith_iff _ _).mpr ht,
      (strEndsWith_iff _ _).mpr ha⟩
  · intro v
    unfold validateSample
    rw [getCol_setCol_ne (by decide : ("vcf" : String) ≠ "sample"),
      getCol_setCol_ne (by decide : ("traits" : String) ≠ "sample"),
      getCol_setCol_ne (by decide : ("ancestry" : String) ≠ "sample")]

/-- C10 witness: the valid row `S1` is accepted, and stays accepted after
its sample value is overwritten with the empty string. -/
theorem c10_witness :
    validateSample rowS1 = .ok () ∧
    validateSample (setCol rowS1 "sample" "") = validateSample rowS1 :=
  ⟨(c10_sample_unconstrained rowS1 ⟨"S1".data, by decide⟩ ⟨"S1".data, by decide⟩
      ⟨"S1".data, by decide⟩).1,
    (c10_sample_unconstrained rowS1 ⟨"S1".data, by decide⟩ ⟨"S1".data, by decide⟩
      ⟨"S1".data, by decide⟩).2.1 ""⟩
